import Mathlib

/-!
# Verification of the nnetplot geometry core

Shallow embedding of `nnetplot/activations.py` and `nnetplot/nnetplot.py`.
Coordinates are modelled as exact rationals; activation functions map into the
reals because `sigmoid` uses the exponential.  Python values that flow through
the activation dispatcher (callables, strings, booleans, `None`) are modelled
by the inductive `PyVal`.  Mutation of a layer's anchor by the alignment
procedures is modelled by explicit state passing: each alignment returns the
post-state of both of its layer arguments.
-/

set_option autoImplicit false
set_option linter.unusedVariables false

namespace Nnetplot

/-- A Python value that can be passed where an activation selector is
expected: an already-callable activation, a string, a boolean (the default
`special=False`), or `None` (the default `activation=None`). -/
inductive PyVal where
  | func : (ℚ → ℚ → ℚ → ℝ) → PyVal
  | str : String → PyVal
  | bool : Bool → PyVal
  | none : PyVal

/-- `activations.relu`: `0 - radius / 4` for `x ≤ 0`, else `x - radius / 4`. -/
noncomputable def relu (x y radius : ℚ) : ℝ :=
  if x ≤ 0 then (0 : ℝ) - (radius : ℝ) / 4 else (x : ℝ) - (radius : ℝ) / 4

/-- `activations.sigmoid`: `radius / (1 + exp(-radius * 100 * x)) - radius / 2`. -/
noncomputable def sigmoid (x y radius : ℚ) : ℝ :=
  (radius : ℝ) / (1 + Real.exp (-(radius : ℝ) * 100 * (x : ℝ))) - (radius : ℝ) / 2

/-- `activations.linear`: the identity on the first argument. -/
noncomputable def linear (x y radius : ℚ) : ℝ := (x : ℝ)

/-- `np.linspace(a, b)` with the default `num=50`: the 50 points
`a + i * (b - a) / 49` for `i = 0, …, 49`. -/
def linspace (a b : ℚ) : List ℚ :=
  (List.range 50).map fun i : Nat => a + (i : ℚ) * ((b - a) / 49)

/-- `activations.make_node_data`: sample positions `X = linspace(x - radius, x + radius)`
and values `Y = [y + activation(xi - x, y, radius) for xi in X]`. -/
noncomputable def make_node_data (x y radius : ℚ) (activation : ℚ → ℚ → ℚ → ℝ) :
    List ℚ × List ℝ :=
  let X := linspace (x - radius) (x + radius)
  (X, X.map fun xi => (y : ℝ) + activation (xi - x) y radius)

/-- `activations.dispacth_activation` (sic): a callable is returned as is,
the names relu, sigmoid and linear map to the named functions, and
everything else returns `None`. -/
noncomputable def dispacth_activation : PyVal → PyVal
  | PyVal.func f => PyVal.func f
  | PyVal.str s =>
      if s = "relu" then PyVal.func relu
      else if s = "sigmoid" then PyVal.func sigmoid
      else if s = "linear" then PyVal.func linear
      else PyVal.none
  | PyVal.bool _ => PyVal.none
  | PyVal.none => PyVal.none

/-- The fields of `nnetplot.Layer` as set by `Layer.__init__`.  `rows` and
`columns` are Python integers and may be zero or negative. -/
structure Layer where
  rows : ℤ
  columns : ℤ
  activation_str : PyVal
  activation : PyVal
  special : PyVal
  xanchor : ℚ
  yanchor : ℚ
  radius : ℚ
  vspace : ℚ
  hspace : ℚ

/-- `Layer.__init__`: stores the shape parameters, the raw activation
argument, and the dispatched activation. -/
noncomputable def mkLayer (rows columns : ℤ) (activation special : PyVal)
    (xanchor yanchor radius vspace hspace : ℚ) : Layer :=
  { rows := rows
    columns := columns
    activation_str := activation
    activation := dispacth_activation activation
    special := special
    xanchor := xanchor
    yanchor := yanchor
    radius := radius
    vspace := vspace
    hspace := hspace }

/-- The inner loop of `Layer.node_centers`: starting at `(x, y)`, yield one
point per row, decrementing `y` by `step` after each. -/
def column_points (x y step : ℚ) : Nat → List (ℚ × ℚ)
  | 0 => []
  | n + 1 => (x, y) :: column_points x (y - step) step n

/-- The outer loop of `Layer.node_centers`: one column of points per
iteration, resetting `y` to `yanchor - radius` and incrementing `x` by
`2 * radius + hspace` after each column. -/
def grid_points (L : Layer) (x : ℚ) : Nat → List (ℚ × ℚ)
  | 0 => []
  | n + 1 =>
      column_points x (L.yanchor - L.radius) (2 * L.radius + L.vspace) L.rows.toNat
        ++ grid_points L (x + (2 * L.radius + L.hspace)) n

/-- `Layer.node_centers`: the generator of the centerpoints of every node,
started at `x = xanchor + radius`, iterated over `range(columns)` columns of
`range(rows)` rows each.  A nonpositive count gives an empty `range`. -/
def Layer.node_centers (L : Layer) : List (ℚ × ℚ) :=
  grid_points L (L.xanchor + L.radius) L.columns.toNat

/-- The dictionary returned by `Layer.rect_coords`. -/
structure RectCoords where
  xy : ℚ × ℚ
  width : ℚ
  height : ℚ

/-- `Layer.rect_coords`: top-left corner, width and height of the layer
rectangle, recomputed from the current fields. -/
def Layer.rect_coords (L : Layer) (pad : ℚ) : RectCoords :=
  { xy := (L.xanchor - pad, L.yanchor + pad)
    width := 2 * L.radius * (L.columns : ℚ) + 2 * pad + ((L.columns : ℚ) - 1) * L.hspace
    height := -(2 * L.radius * (L.rows : ℚ) + 2 * pad + ((L.rows : ℚ) - 1) * L.vspace) }

/-- `Layer.inbound_node_connections`: each node center pulled left by
`0.2 * radius`. -/
def Layer.inbound_node_connections (L : Layer) : List (ℚ × ℚ) :=
  L.node_centers.map fun p => (p.1 - 0.2 * L.radius, p.2)

/-- `Layer.outbound_node_connections`: each node center pushed right by
`0.2 * radius`. -/
def Layer.outbound_node_connections (L : Layer) : List (ℚ × ℚ) :=
  L.node_centers.map fun p => (p.1 + 0.2 * L.radius, p.2)

/-- `nnetplot.vertical_align`: assigns
`layer1.yanchor = y0 - ratio * (h1 - h0)` and touches nothing else.  The
result is the post-state of both arguments. -/
def vertical_align (layer0 layer1 : Layer) (ratio : ℚ) : Layer × Layer :=
  (layer0,
    { layer1 with
        yanchor := layer0.yanchor
          - ratio * ((layer1.rect_coords 0).height - (layer0.rect_coords 0).height) })

/-- `nnetplot.horizontal_align`: assigns
`layer1.xanchor = layer0.xanchor + spacing` and touches nothing else.  The
result is the post-state of both arguments. -/
def horizontal_align (layer0 layer1 : Layer) (spacing : ℚ) : Layer × Layer :=
  (layer0, { layer1 with xanchor := layer0.xanchor + spacing })

/-- `nnetplot.connect_nodes_to_nodes`: one `axis.plot` call per pair of the
nested loops over `layer0.outbound_node_connections()` and
`layer1.inbound_node_connections()`; each emitted segment is recorded as the
pair (outbound point, inbound point). -/
def connect_nodes_to_nodes (layer0 layer1 : Layer) :
    List ((ℚ × ℚ) × (ℚ × ℚ)) :=
  layer0.outbound_node_connections.flatMap fun pout =>
    layer1.inbound_node_connections.map fun pin => (pout, pin)

/-- `Layer.annotate_nodes`: one `axis.annotate` call per element of
`zip(annotations, self.node_centers())`, recorded as (text, center). -/
def Layer.annotate_nodes (L : Layer) (ann : List String) :
    List (String × (ℚ × ℚ)) :=
  ann.zip L.node_centers

/-- The fields of `nnetplot.Node` as set by `Node.__init__`. -/
structure Node where
  x : ℚ
  y : ℚ
  radius : ℚ
  activation : PyVal
  special : PyVal

/-- `Node.__init__`: dispatches the activation argument again. -/
noncomputable def mkNode (x y radius : ℚ) (activation special : PyVal) : Node :=
  { x := x
    y := y
    radius := radius
    activation := dispacth_activation activation
    special := special }

/-- `Layer.draw_nodes`: constructs one `Node` per node center, handing it the
layer's already-dispatched `self.activation` and its `special` flag. -/
noncomputable def Layer.draw_nodes (L : Layer) : List Node :=
  L.node_centers.map fun p => mkNode p.1 p.2 L.radius L.activation L.special

/-! ## Helper lemmas about the embedded iteration patterns -/

lemma column_points_length (x y step : ℚ) (n : Nat) :
    (column_points x y step n).length = n := by
  induction n generalizing y with
  | zero => rfl
  | succ n ih => simp [column_points, ih]

lemma column_points_getElem? (x y step : ℚ) (n j : Nat) (hj : j < n) :
    (column_points x y step n)[j]? = some (x, y - j * step) := by
  induction n generalizing y j with
  | zero => omega
  | succ n ih =>
    cases j with
    | zero => simp [column_points]
    | succ j =>
      have hs : y - step - (j : ℚ) * step = y - ((j + 1 : Nat) : ℚ) * step := by
        push_cast
        ring
      rw [column_points, List.getElem?_cons_succ, ih (y - step) j (by omega), hs]

lemma grid_points_length (L : Layer) (x : ℚ) (n : Nat) :
    (grid_points L x n).length = n * L.rows.toNat := by
  induction n generalizing x with
  | zero => simp [grid_points]
  | succ n ih =>
    simp [grid_points, column_points_length, ih]
    ring

lemma grid_points_getElem? (L : Layer) (x : ℚ) (n i j : Nat)
    (hi : i < n) (hj : j < L.rows.toNat) :
    (grid_points L x n)[i * L.rows.toNat + j]? =
      some (x + i * (2 * L.radius + L.hspace),
            L.yanchor - L.radius - j * (2 * L.radius + L.vspace)) := by
  induction n generalizing x i with
  | zero => omega
  | succ n ih =>
    cases i with
    | zero =>
      rw [grid_points, List.getElem?_append]
      rw [column_points_length]
      simp only [Nat.zero_mul, Nat.zero_add, if_pos hj]
      rw [column_points_getElem? x (L.yanchor - L.radius) (2 * L.radius + L.vspace) L.rows.toNat j hj]
      norm_num
    | succ i =>
      have hidx : (i + 1) * L.rows.toNat + j
          = L.rows.toNat + (i * L.rows.toNat + j) := by ring
      rw [grid_points, hidx, List.getElem?_append, column_points_length]
      rw [if_neg (by omega)]
      have hsub : L.rows.toNat + (i * L.rows.toNat + j) - L.rows.toNat
          = i * L.rows.toNat + j := by omega
      rw [hsub, ih (x + (2 * L.radius + L.hspace)) i (by omega)]
      have hx : x + (2 * L.radius + L.hspace) + (i : ℚ) * (2 * L.radius + L.hspace)
          = x + ((i + 1 : Nat) : ℚ) * (2 * L.radius + L.hspace) := by
        push_cast
        ring
      rw [hx]

lemma node_centers_length (L : Layer) :
    L.node_centers.length = L.columns.toNat * L.rows.toNat :=
  grid_points_length L (L.xanchor + L.radius) L.columns.toNat

lemma node_centers_getElem? (L : Layer) (i j : Nat)
    (hi : i < L.columns.toNat) (hj : j < L.rows.toNat) :
    L.node_centers[i * L.rows.toNat + j]? =
      some (L.xanchor + L.radius + i * (2 * L.radius + L.hspace),
            L.yanchor - L.radius - j * (2 * L.radius + L.vspace)) :=
  grid_points_getElem? L (L.xanchor + L.radius) L.columns.toNat i j hi hj

lemma length_product {α β γ : Type} (f : α → β → γ) (xs : List α) (ys : List β) :
    (xs.flatMap fun a => ys.map fun b => f a b).length = xs.length * ys.length := by
  induction xs with
  | nil => simp
  | cons a xs ih =>
    simp only [List.flatMap_cons, List.length_append, List.length_map, ih, List.length_cons]
    ring

lemma getElem?_product {α β γ : Type} (f : α → β → γ) (xs : List α) (ys : List β)
    (i j : Nat) (a : α) (b : β) (ha : xs[i]? = some a) (hb : ys[j]? = some b) :
    (xs.flatMap fun u => ys.map fun v => f u v)[i * ys.length + j]? = some (f a b) := by
  induction xs generalizing i with
  | nil => rw [List.getElem?_nil] at ha; cases ha
  | cons hd tl ih =>
    cases i with
    | zero =>
      rw [List.getElem?_cons_zero] at ha
      obtain rfl : hd = a := Option.some.inj ha
      obtain ⟨hj, rfl⟩ := List.getElem?_eq_some_iff.mp hb
      rw [List.flatMap_cons, List.getElem?_append]
      simp only [Nat.zero_mul, Nat.zero_add, List.length_map, if_pos hj]
      rw [List.getElem?_map, List.getElem?_eq_getElem hj]
      rfl
    | succ i =>
      rw [List.getElem?_cons_succ] at ha
      have hidx : (i + 1) * ys.length + j = ys.length + (i * ys.length + j) := by ring
      rw [List.flatMap_cons, hidx, List.getElem?_append, List.length_map]
      rw [if_neg (by omega)]
      have hsub : ys.length + (i * ys.length + j) - ys.length = i * ys.length + j := by
        omega
      rw [hsub]
      exact ih i ha

lemma getElem?_zip {α β : Type} (xs : List α) (ys : List β) (i : Nat) (a : α) (b : β)
    (ha : xs[i]? = some a) (hb : ys[i]? = some b) :
    (xs.zip ys)[i]? = some (a, b) := by
  induction xs generalizing ys i with
  | nil => simp at ha
  | cons hd tl ih =>
    cases ys with
    | nil => simp at hb
    | cons hd2 tl2 =>
      cases i with
      | zero =>
        rw [List.getElem?_cons_zero] at ha hb
        rw [List.zip_cons_cons, List.getElem?_cons_zero,
          Option.some.inj ha, Option.some.inj hb]
      | succ i =>
        rw [List.getElem?_cons_succ] at ha hb
        rw [List.zip_cons_cons, List.getElem?_cons_succ]
        exact ih tl2 i ha hb

/-! ## Concrete layers used to instantiate the theorems -/

/-- A 3 x 4 layer with the source's default geometry parameters. -/
def testLayer : Layer :=
  { rows := 3
    columns := 4
    activation_str := PyVal.none
    activation := PyVal.none
    special := PyVal.bool false
    xanchor := 0
    yanchor := 0
    radius := 1/5
    vspace := 1/10
    hspace := 1/10 }

/-! ## Claims -/

/-- C1: for every layer with `rows ≥ 1` and `columns ≥ 1`, `node_centers`
yields exactly `rows * columns` pairs in column-major order: the point of
column `i`, row `j` sits at index `i * rows + j` and equals
`(xanchor + radius + i * (2 * radius + hspace),
yanchor - radius - j * (2 * radius + vspace))`; in particular a 3 x 4 layer
yields 12 points whose first 3 share the same x. -/
theorem node_centers_column_major (L : Layer) (hr : 1 ≤ L.rows) (hc : 1 ≤ L.columns) :
    L.node_centers.length = L.columns.toNat * L.rows.toNat ∧
    (∀ i j, i < L.columns.toNat → j < L.rows.toNat →
      L.node_centers[i * L.rows.toNat + j]? =
        some (L.xanchor + L.radius + i * (2 * L.radius + L.hspace),
              L.yanchor - L.radius - j * (2 * L.radius + L.vspace))) ∧
    (L.rows = 3 → L.columns = 4 →
      L.node_centers.length = 12 ∧
      ∀ k, k < 3 →
        Option.map Prod.fst L.node_centers[k]? = some (L.xanchor + L.radius)) := by
  refine ⟨node_centers_length L, fun i j hi hj => node_centers_getElem? L i j hi hj, ?_⟩
  intro h3 h4
  constructor
  · rw [node_centers_length, h3, h4]
    rfl
  · intro k hk
    have hgv := node_centers_getElem? L 0 k (by rw [h4]; norm_num) (by rw [h3]; omega)
    simp only [Nat.zero_mul, Nat.zero_add] at hgv
    rw [hgv]
    simp

/-- Witness for C1 at a concrete 3 x 4 layer. -/
theorem node_centers_column_major_witness :
    testLayer.node_centers.length = 12 ∧
    Option.map Prod.fst testLayer.node_centers[0]? =
      some (testLayer.xanchor + testLayer.radius) := by
  have h := (node_centers_column_major testLayer (by decide) (by decide)).2.2 rfl rfl
  exact ⟨h.1, h.2 0 (by decide)⟩

/-- C2: `rect_coords pad` returns top-left corner
`(xanchor - pad, yanchor + pad)`, width
`2 * radius * columns + 2 * pad + (columns - 1) * hspace` and height
`-(2 * radius * rows + 2 * pad + (rows - 1) * vspace)`, recomputed from the
current fields on every call, so it reflects the latest anchor after any
alignment. -/
theorem rect_coords_formula (L : Layer) (pad : ℚ) :
    (L.rect_coords pad).xy = (L.xanchor - pad, L.yanchor + pad) ∧
    (L.rect_coords pad).width
      = 2 * L.radius * (L.columns : ℚ) + 2 * pad + ((L.columns : ℚ) - 1) * L.hspace ∧
    (L.rect_coords pad).height
      = -(2 * L.radius * (L.rows : ℚ) + 2 * pad + ((L.rows : ℚ) - 1) * L.vspace) ∧
    (∀ L0 r, ((vertical_align L0 L r).2.rect_coords pad).xy =
      ((vertical_align L0 L r).2.xanchor - pad, (vertical_align L0 L r).2.yanchor + pad)) ∧
    (∀ L0 s, ((horizontal_align L0 L s).2.rect_coords pad).xy =
      ((horizontal_align L0 L s).2.xanchor - pad, (horizontal_align L0 L s).2.yanchor + pad)) :=
  ⟨rfl, rfl, rfl, fun L0 r => rfl, fun L0 s => rfl⟩

/-- C3: `vertical_align` sets the second layer's `yanchor` to
`y0 - ratio * (h1 - h0)`; with ratio 0 the anchors coincide, and with ratio
1/2 two layers of equal rectangle height end with equal `yanchor`. -/
theorem vertical_align_offset (L0 L1 : Layer) (r : ℚ) :
    (vertical_align L0 L1 r).2.yanchor
      = L0.yanchor - r * ((L1.rect_coords 0).height - (L0.rect_coords 0).height) ∧
    (vertical_align L0 L1 0).2.yanchor = L0.yanchor ∧
    ((L1.rect_coords 0).height = (L0.rect_coords 0).height →
      (vertical_align L0 L1 (1/2)).2.yanchor = (vertical_align L0 L1 (1/2)).1.yanchor) := by
  refine ⟨rfl, by simp [vertical_align], ?_⟩
  intro h
  simp [vertical_align, h]

/-- Witness for C3: two identical layers have equal rectangle heights, and
centering leaves their anchors equal. -/
theorem vertical_align_offset_witness :
    (vertical_align testLayer testLayer (1/2)).2.yanchor
      = (vertical_align testLayer testLayer (1/2)).1.yanchor :=
  (vertical_align_offset testLayer testLayer (1/2)).2.2 rfl

/-- C9: both alignment operations leave the first layer untouched and change
nothing of the second layer except the one anchor coordinate they assign. -/
theorem align_mutates_only_second_layer (L0 L1 : Layer) (r s : ℚ) :
    (vertical_align L0 L1 r).1 = L0 ∧
    (vertical_align L0 L1 r).2.rows = L1.rows ∧
    (vertical_align L0 L1 r).2.columns = L1.columns ∧
    (vertical_align L0 L1 r).2.activation_str = L1.activation_str ∧
    (vertical_align L0 L1 r).2.activation = L1.activation ∧
    (vertical_align L0 L1 r).2.special = L1.special ∧
    (vertical_align L0 L1 r).2.xanchor = L1.xanchor ∧
    (vertical_align L0 L1 r).2.radius = L1.radius ∧
    (vertical_align L0 L1 r).2.vspace = L1.vspace ∧
    (vertical_align L0 L1 r).2.hspace = L1.hspace ∧
    (horizontal_align L0 L1 s).1 = L0 ∧
    (horizontal_align L0 L1 s).2.rows = L1.rows ∧
    (horizontal_align L0 L1 s).2.columns = L1.columns ∧
    (horizontal_align L0 L1 s).2.activation_str = L1.activation_str ∧
    (horizontal_align L0 L1 s).2.activation = L1.activation ∧
    (horizontal_align L0 L1 s).2.special = L1.special ∧
    (horizontal_align L0 L1 s).2.yanchor = L1.yanchor ∧
    (horizontal_align L0 L1 s).2.radius = L1.radius ∧
    (horizontal_align L0 L1 s).2.vspace = L1.vspace ∧
    (horizontal_align L0 L1 s).2.hspace = L1.hspace :=
  ⟨rfl, rfl, rfl, rfl, rfl, rfl, rfl, rfl, rfl, rfl,
   rfl, rfl, rfl, rfl, rfl, rfl, rfl, rfl, rfl, rfl⟩

/-- A 2-node layer (2 rows, 1 column) at the origin. -/
def layerA : Layer :=
  { rows := 2
    columns := 1
    activation_str := PyVal.none
    activation := PyVal.none
    special := PyVal.bool false
    xanchor := 0
    yanchor := 0
    radius := 1/5
    vspace := 1/10
    hspace := 1/10 }

/-- A 3-node layer (3 rows, 1 column) anchored at x = 1. -/
def layerB : Layer :=
  { rows := 3
    columns := 1
    activation_str := PyVal.none
    activation := PyVal.none
    special := PyVal.bool false
    xanchor := 1
    yanchor := 0
    radius := 1/5
    vspace := 1/10
    hspace := 1/10 }

/-- C4: `connect_nodes_to_nodes` emits exactly one segment per pair of the
Cartesian product of outbound and inbound node connection points, in nested
loop order; a node centered at `(x, y)` has inbound point
`(x - 0.2 * radius, y)` and outbound point `(x + 0.2 * radius, y)`; a 2-node
layer into a 3-node layer yields 6 segments. -/
theorem connect_nodes_to_nodes_cartesian (L0 L1 : Layer) :
    (connect_nodes_to_nodes L0 L1).length
      = L0.node_centers.length * L1.node_centers.length ∧
    (∀ i j p q, L0.node_centers[i]? = some p → L1.node_centers[j]? = some q →
      (connect_nodes_to_nodes L0 L1)[i * L1.node_centers.length + j]? =
        some ((p.1 + 0.2 * L0.radius, p.2), (q.1 - 0.2 * L1.radius, q.2))) ∧
    (L0.node_centers.length = 2 → L1.node_centers.length = 3 →
      (connect_nodes_to_nodes L0 L1).length = 6) := by
  have hlen : (connect_nodes_to_nodes L0 L1).length
      = L0.node_centers.length * L1.node_centers.length := by
    rw [connect_nodes_to_nodes]
    rw [length_product (fun u v => (u, v))
      L0.outbound_node_connections L1.inbound_node_connections]
    rw [Layer.outbound_node_connections, Layer.inbound_node_connections,
      List.length_map, List.length_map]
  refine ⟨hlen, ?_, ?_⟩
  · intro i j p q hp hq
    have hout : L0.outbound_node_connections[i]?
        = some (p.1 + 0.2 * L0.radius, p.2) := by
      rw [Layer.outbound_node_connections, List.getElem?_map, hp]
      rfl
    have hin : L1.inbound_node_connections[j]?
        = some (q.1 - 0.2 * L1.radius, q.2) := by
      rw [Layer.inbound_node_connections, List.getElem?_map, hq]
      rfl
    have hprod := getElem?_product (fun u v => (u, v))
      L0.outbound_node_connections L1.inbound_node_connections i j _ _ hout hin
    have hil : L1.inbound_node_connections.length = L1.node_centers.length := by
      rw [Layer.inbound_node_connections, List.length_map]
    rw [hil] at hprod
    exact hprod
  · intro h2 h3
    rw [hlen, h2, h3]

/-- Witness for C4: the concrete 2-node and 3-node layers give 6 segments. -/
theorem connect_nodes_to_nodes_cartesian_witness :
    (connect_nodes_to_nodes layerA layerB).length = 6 :=
  (connect_nodes_to_nodes_cartesian layerA layerB).2.2 (by decide) (by decide)

/-- A layer with `rows = 0`, one column, and the default positive spacings:
its rectangle height is `+vspace` and its area is nonzero. -/
def badLayer : Layer :=
  { rows := 0
    columns := 1
    activation_str := PyVal.none
    activation := PyVal.none
    special := PyVal.bool false
    xanchor := 0
    yanchor := 0
    radius := 1/5
    vspace := 1/10
    hspace := 1/10 }

/-- C5 counterexample: a layer with `rows = 0`, `radius = 1/5 > 0` and
spacings `1/10 ≥ 0` has rectangle height `1/10 > 0` (not `≤ 0`) and a
nonzero rectangle area, refuting the claim for zero rows. -/
theorem rect_height_counterexample :
    0 < badLayer.radius ∧ 0 ≤ badLayer.vspace ∧ 0 ≤ badLayer.hspace ∧
    badLayer.rows = 0 ∧
    ¬ (badLayer.rect_coords 0).height ≤ 0 ∧
    (badLayer.rect_coords 0).width * (badLayer.rect_coords 0).height ≠ 0 := by
  refine ⟨by norm_num [badLayer], by norm_num [badLayer], by norm_num [badLayer],
    by norm_num [badLayer], ?_, ?_⟩ <;>
    norm_num [badLayer, Layer.rect_coords]

lemma grid_points_of_rows_toNat_zero (L : Layer) (h : L.rows.toNat = 0) :
    ∀ (x : ℚ) (n : Nat), grid_points L x n = [] := by
  intro x n
  induction n generalizing x with
  | zero => rfl
  | succ n ih =>
    rw [grid_points, h]
    exact (List.nil_append _).trans (ih _)

/-- C5 amended: for every layer with `radius > 0`, spacings `≥ 0` and
padding `≥ 0`: the rectangle height is `≤ 0` whenever `rows ≥ 1` (not for
all integer row counts), the width is `> 0` whenever `columns ≥ 1`, and zero
or negative rows or columns give an empty node-center sequence; the
rectangle of such a degenerate layer need not have zero area. -/
theorem rect_geometry_amended (L : Layer) (pad : ℚ) (hrad : 0 < L.radius)
    (hv : 0 ≤ L.vspace) (hh : 0 ≤ L.hspace) (hp : 0 ≤ pad) :
    (1 ≤ L.rows → (L.rect_coords pad).height ≤ 0) ∧
    (1 ≤ L.columns → 0 < (L.rect_coords pad).width) ∧
    ((L.rows ≤ 0 ∨ L.columns ≤ 0) → L.node_centers = []) := by
  refine ⟨?_, ?_, ?_⟩
  · intro hr
    have hr1 : (1 : ℚ) ≤ (L.rows : ℚ) := by exact_mod_cast hr
    show -(2 * L.radius * (L.rows : ℚ) + 2 * pad + ((L.rows : ℚ) - 1) * L.vspace) ≤ 0
    have h1 : 0 < L.radius * (L.rows : ℚ) :=
      mul_pos hrad (lt_of_lt_of_le zero_lt_one hr1)
    have h2 : 0 ≤ ((L.rows : ℚ) - 1) * L.vspace :=
      mul_nonneg (by linarith) hv
    linarith
  · intro hc
    have hc1 : (1 : ℚ) ≤ (L.columns : ℚ) := by exact_mod_cast hc
    show 0 < 2 * L.radius * (L.columns : ℚ) + 2 * pad + ((L.columns : ℚ) - 1) * L.hspace
    have h1 : 0 < L.radius * (L.columns : ℚ) :=
      mul_pos hrad (lt_of_lt_of_le zero_lt_one hc1)
    have h2 : 0 ≤ ((L.columns : ℚ) - 1) * L.hspace :=
      mul_nonneg (by linarith) hh
    linarith
  · intro h
    rcases h with h | h
    · exact grid_points_of_rows_toNat_zero L (by omega) _ _
    · rw [Layer.node_centers, Int.toNat_of_nonpos h]
      rfl

/-- Witness for C5's amended statement at the concrete 3 x 4 layer and at
the degenerate `rows = 0` layer. -/
theorem rect_geometry_amended_witness :
    (testLayer.rect_coords 0).height ≤ 0 ∧
    0 < (testLayer.rect_coords 0).width ∧
    badLayer.node_centers = [] :=
  ⟨(rect_geometry_amended testLayer 0 (by norm_num [testLayer]) (by norm_num [testLayer])
      (by norm_num [testLayer]) le_rfl).1 (by decide),
   (rect_geometry_amended testLayer 0 (by norm_num [testLayer]) (by norm_num [testLayer])
      (by norm_num [testLayer]) le_rfl).2.1 (by decide),
   (rect_geometry_amended badLayer 0 (by norm_num [badLayer]) (by norm_num [badLayer])
      (by norm_num [badLayer]) le_rfl).2.2 (Or.inl (by decide))⟩

/-- C6: for every node center `(x, y)`, radius `r > 0` and resolved
activation `f`, `make_node_data` returns exactly 50 sample positions
`x - r + i * (2 * r / 49)`, evenly spaced from `x - r` to `x + r` and
strictly increasing, paired with values `y + f (xi - x) y r`. -/
theorem make_node_data_sampling (x y r : ℚ) (f : ℚ → ℚ → ℚ → ℝ) (hr : 0 < r) :
    (make_node_data x y r f).1.length = 50 ∧
    (make_node_data x y r f).2.length = 50 ∧
    (∀ i : Nat, i < 50 →
      (make_node_data x y r f).1[i]? = some (x - r + i * (2 * r / 49))) ∧
    (make_node_data x y r f).1.head? = some (x - r) ∧
    (make_node_data x y r f).1.getLast? = some (x + r) ∧
    (make_node_data x y r f).1.Pairwise (· < ·) ∧
    (∀ (i : Nat) (xi : ℚ), (make_node_data x y r f).1[i]? = some xi →
      (make_node_data x y r f).2[i]? = some ((y : ℝ) + f (xi - x) y r)) := by
  have hgrid : ∀ i : Nat, i < 50 →
      (make_node_data x y r f).1[i]? = some (x - r + i * (2 * r / 49)) := by
    intro i hi
    show (linspace (x - r) (x + r))[i]? = some (x - r + i * (2 * r / 49))
    rw [linspace, List.getElem?_map, List.getElem?_range hi]
    show some ((x - r) + (i : ℚ) * (((x + r) - (x - r)) / 49))
      = some (x - r + (i : ℚ) * (2 * r / 49))
    congr 1
    ring
  have hlen : (make_node_data x y r f).1.length = 50 := by
    show (linspace (x - r) (x + r)).length = 50
    rw [linspace, List.length_map, List.length_range]
  refine ⟨hlen, ?_, hgrid, ?_, ?_, ?_, ?_⟩
  · show ((linspace (x - r) (x + r)).map _).length = 50
    rw [List.length_map]
    exact hlen
  · rw [List.head?_eq_getElem?, hgrid 0 (by norm_num)]
    congr 1
    push_cast
    ring
  · rw [List.getLast?_eq_getElem?, hlen]
    rw [hgrid 49 (by norm_num)]
    congr 1
    push_cast
    ring
  · show (linspace (x - r) (x + r)).Pairwise (· < ·)
    rw [linspace, List.pairwise_map]
    have hstep : (0 : ℚ) < ((x + r) - (x - r)) / 49 := by
      have h2 : ((x + r) - (x - r)) / 49 = 2 * r / 49 := by ring
      rw [h2]
      positivity
    refine (List.pairwise_lt_range 50).imp ?_
    intro a b hab
    have hab2 : (a : ℚ) < (b : ℚ) := by exact_mod_cast hab
    have := mul_lt_mul_of_pos_right hab2 hstep
    linarith
  · intro i xi hxi
    have hxi2 : (linspace (x - r) (x + r))[i]? = some xi := hxi
    show ((linspace (x - r) (x + r)).map
      fun t => (y : ℝ) + f (t - x) y r)[i]? = some ((y : ℝ) + f (xi - x) y r)
    rw [List.getElem?_map, hxi2]
    rfl

/-- Witness for C6 at `x = 0`, `y = 0`, `r = 1` with the linear activation. -/
theorem make_node_data_sampling_witness :
    (make_node_data 0 0 1 linear).1.length = 50 ∧
    (make_node_data 0 0 1 linear).1.head? = some (0 - 1) :=
  ⟨(make_node_data_sampling 0 0 1 linear (by norm_num)).1,
   (make_node_data_sampling 0 0 1 linear (by norm_num)).2.2.2.1⟩

/-- C7: the dispatcher returns a callable argument unchanged, maps the three
recognized names to the named activations, and maps every other value
(unrecognized strings, booleans, `None`) to `None` without error. -/
theorem dispacth_activation_cases :
    (∀ f, dispacth_activation (PyVal.func f) = PyVal.func f) ∧
    dispacth_activation (PyVal.str "relu") = PyVal.func relu ∧
    dispacth_activation (PyVal.str "sigmoid") = PyVal.func sigmoid ∧
    dispacth_activation (PyVal.str "linear") = PyVal.func linear ∧
    (∀ s, s ≠ "relu" → s ≠ "sigmoid" → s ≠ "linear" →
      dispacth_activation (PyVal.str s) = PyVal.none) ∧
    (∀ b, dispacth_activation (PyVal.bool b) = PyVal.none) ∧
    dispacth_activation PyVal.none = PyVal.none := by
  refine ⟨fun f => rfl, rfl, rfl, rfl, ?_, fun b => rfl, rfl⟩
  intro s h1 h2 h3
  simp [dispacth_activation, h1, h2, h3]

/-- Witness for C7 at the unrecognized name softmax. -/
theorem dispacth_activation_cases_witness :
    dispacth_activation (PyVal.str "softmax") = PyVal.none :=
  dispacth_activation_cases.2.2.2.2.1 "softmax" (by decide) (by decide) (by decide)

/-- A layer whose row and column counts are both negative: it has no node
centers although `rows * columns` is positive. -/
def negLayer : Layer :=
  { rows := -1
    columns := -1
    activation_str := PyVal.none
    activation := PyVal.none
    special := PyVal.bool false
    xanchor := 0
    yanchor := 0
    radius := 1/5
    vspace := 1/10
    hspace := 1/10 }

/-- C8 counterexample: with `rows = columns = -1` and one annotation, the
code issues 0 annotation calls while `min(len, rows * columns) = 1`;
the claimed count formula fails for a layer with negative counts. -/
theorem annotate_nodes_count_counterexample :
    (negLayer.annotate_nodes ["a"]).length ≠
      min (["a"] : List String).length (negLayer.rows * negLayer.columns).toNat := by
  decide

/-- C8 amended: `annotate_nodes` pairs annotations with node centers
positionally and issues exactly `min (length of annotations, number of node
centers)` calls, the i-th call placing the i-th annotation at the i-th node
center, with excess on either side dropped; the count equals
`min (length, rows * columns)` whenever `rows ≥ 0` and `columns ≥ 0`, but
not for layers whose two counts are both negative. -/
theorem annotate_nodes_zip (L : Layer) (ann : List String) :
    (L.annotate_nodes ann).length = min ann.length L.node_centers.length ∧
    (∀ (i : Nat) (t : String) (p : ℚ × ℚ),
      ann[i]? = some t → L.node_centers[i]? = some p →
      (L.annotate_nodes ann)[i]? = some (t, p)) ∧
    (0 ≤ L.rows → 0 ≤ L.columns →
      (L.annotate_nodes ann).length = min ann.length (L.rows * L.columns).toNat) := by
  refine ⟨?_, fun i t p ht hp => getElem?_zip ann L.node_centers i t p ht hp, ?_⟩
  · rw [Layer.annotate_nodes, List.length_zip]
  · intro hr hc
    rw [Layer.annotate_nodes, List.length_zip, node_centers_length]
    have hmul : (L.rows * L.columns).toNat = L.columns.toNat * L.rows.toNat := by
      obtain ⟨m, hm⟩ := Int.eq_ofNat_of_zero_le hr
      obtain ⟨n, hn⟩ := Int.eq_ofNat_of_zero_le hc
      rw [hm, hn, ← Int.natCast_mul, Int.toNat_natCast, Int.toNat_natCast,
        Int.toNat_natCast]
      exact Nat.mul_comm m n
    rw [hmul]

/-- Witness for C8's amended statement at the concrete 3 x 4 layer with two
annotations. -/
theorem annotate_nodes_zip_witness :
    (testLayer.annotate_nodes ["a", "b"]).length
      = min (["a", "b"] : List String).length
          (testLayer.rows * testLayer.columns).toNat :=
  (annotate_nodes_zip testLayer ["a", "b"]).2.2 (by decide) (by decide)

/-- C10: the dispatcher is idempotent, hence the nodes built by
`Layer.draw_nodes` (which re-dispatch the layer's already-dispatched
activation in `Node.__init__`) carry exactly the activation the layer
resolved. -/
theorem dispacth_activation_idempotent :
    (∀ v, dispacth_activation (dispacth_activation v) = dispacth_activation v) ∧
    (∀ (rows columns : ℤ) (a sp : PyVal) (xa ya ra va hs : ℚ) (n : Node),
      n ∈ (mkLayer rows columns a sp xa ya ra va hs).draw_nodes →
      n.activation = (mkLayer rows columns a sp xa ya ra va hs).activation) := by
  have key : ∀ v, dispacth_activation (dispacth_activation v) = dispacth_activation v := by
    intro v
    cases v with
    | func f => rfl
    | bool b => rfl
    | none => rfl
    | str s =>
      by_cases h1 : s = "relu"
      · simp [dispacth_activation, h1]
      · by_cases h2 : s = "sigmoid"
        · simp [dispacth_activation, h1, h2]
        · by_cases h3 : s = "linear"
          · simp [dispacth_activation, h1, h2, h3]
          · simp [dispacth_activation, h1, h2, h3]
  refine ⟨key, ?_⟩
  intro rows columns a sp xa ya ra va hs n hn
  rw [Layer.draw_nodes] at hn
  obtain ⟨p, hp, rfl⟩ := List.mem_map.mp hn
  show (mkNode p.1 p.2 (mkLayer rows columns a sp xa ya ra va hs).radius
    (mkLayer rows columns a sp xa ya ra va hs).activation
    (mkLayer rows columns a sp xa ya ra va hs).special).activation
      = (mkLayer rows columns a sp xa ya ra va hs).activation
  show dispacth_activation (dispacth_activation a) = dispacth_activation a
  exact key a

/-- A 1 x 1 relu layer used to instantiate C10. -/
noncomputable def demoLayer : Layer :=
  mkLayer 1 1 (PyVal.str "relu") (PyVal.bool false) 0 0 (1/5) (1/10) (1/10)

/-- The single node `Layer.draw_nodes` builds for `demoLayer`. -/
noncomputable def demoNode : Node :=
  mkNode (0 + (1/5 : ℚ)) (0 - (1/5 : ℚ)) demoLayer.radius demoLayer.activation
    demoLayer.special

/-- Witness for C10: re-dispatching a dispatched name is a no-op, and the
node drawn for the 1 x 1 relu layer keeps the layer's resolved activation. -/
theorem dispacth_activation_idempotent_witness :
    dispacth_activation (dispacth_activation (PyVal.str "linear"))
      = dispacth_activation (PyVal.str "linear") ∧
    demoNode.activation = demoLayer.activation := by
  constructor
  · exact dispacth_activation_idempotent.1 (PyVal.str "linear")
  · apply dispacth_activation_idempotent.2 1 1 (PyVal.str "relu") (PyVal.bool false)
      0 0 (1/5) (1/10) (1/10) demoNode
    have hlist : (mkLayer 1 1 (PyVal.str "relu") (PyVal.bool false)
        0 0 (1/5) (1/10) (1/10)).draw_nodes = [demoNode] := rfl
    rw [hlist]
    exact List.mem_singleton.mpr rfl

end Nnetplot
